import Mathlib

set_option linter.unusedVariables false

/-!
Verification development for the pyBlocker application-blocking worker
(`BlockerThread` in `main.py`).  The worker thread, its countdown phase,
its enforcement loop, the per-process path/name matching and
terminate-and-wait logic, and its stop flag are embedded below as
executable Lean definitions; OS-dependent behaviour (process tables, how
long a sweep takes on the wall clock, whether a process exits within the
3-second wait, whether reading a process attribute raises) is supplied
through explicit parameters, so every theorem quantifies over all such
environments.
-/

namespace PyBlocker

/-- Model of one psutil process handle as observed during a single sweep
pass.  `exeR`/`nameR` are `none` when reading the attribute raises
(`NoSuchProcess`/`AccessDenied`); `some ""` models an empty (falsy)
executable path.  `waitOk` is `true` when `proc.wait(timeout=3)` returns
before the timeout and `false` when it raises `TimeoutExpired`. -/
structure Proc where
  pid : Nat
  exeR : Option String
  nameR : Option String
  waitOk : Bool
deriving Repr, DecidableEq

/-- Effects of the per-process body of the sweep (`main.py` lines
113-139): how much `blocked_apps` and `self.attempts` were incremented,
how many `proc.terminate()` calls were issued, and whether an exception
was caught by the `except` handler for this process. -/
structure ProcOutcome where
  blockedDelta : Nat
  attemptsDelta : Nat
  termRequests : Nat
  softFailed : Bool
deriving Repr, DecidableEq

/-- The path-check block (`main.py` lines 115-125), run inside the
per-process `try`.  `.error` means an exception escaped this block (it is
caught by the handler at line 138, so the name check below is skipped for
this process); `.ok` means control continues to the name check.  The
payload records the effects performed so far.  `A` models
`os.path.abspath`; `P` is `self.app_paths` (already absolute). -/
def pathStep (A : String → String) (P : List String) (p : Proc) :
    Except ProcOutcome ProcOutcome :=
  if P = [] then .ok ⟨0, 0, 0, false⟩
  else
    match p.exeR with
    | none => .error ⟨0, 0, 0, true⟩
    | some s =>
      if s = "" then .ok ⟨0, 0, 0, false⟩
      else if A s ∈ P then
        match p.nameR with
        | none => .error ⟨0, 0, 0, true⟩
        | some _ =>
          if p.waitOk then .ok ⟨1, 1, 1, false⟩
          else .error ⟨0, 0, 1, true⟩
      else .ok ⟨0, 0, 0, false⟩

/-- The name-check block (`main.py` lines 128-137), reached only when the
path check did not raise.  `N` is `self.process_names` (already
lowercased); `acc` carries the effects of the path check. -/
def nameStep (L : String → String) (N : List String) (p : Proc) (acc : ProcOutcome) : ProcOutcome :=
  if N = [] then acc
  else
    match p.nameR with
    | none => { acc with softFailed := true }
    | some n =>
      if L n ∈ N then
        if p.waitOk then
          { acc with
            blockedDelta := acc.blockedDelta + 1
            attemptsDelta := acc.attemptsDelta + 1
            termRequests := acc.termRequests + 1 }
        else { acc with termRequests := acc.termRequests + 1, softFailed := true }
      else acc

/-- One iteration of the `for proc in psutil.process_iter(...)` body
(`main.py` lines 112-139): the path check, then the name check, with the
`except` handler catching any exception locally. -/
def sweepOne (A L : String → String) (P N : List String) (p : Proc) : ProcOutcome :=
  match pathStep A P p with
  | .error e => e
  | .ok e => nameStep L N p e

/-- One full enumeration-and-termination pass over the process table,
returning `(blocked_apps, attempts delta)` exactly as accumulated by the
loop at `main.py` lines 111-139. -/
def sweep (A L : String → String) (P N : List String) (procs : List Proc) :
    Nat × Nat :=
  procs.foldl
    (fun acc p =>
      let o := sweepOne A L P N p
      (acc.1 + o.blockedDelta, acc.2 + o.attemptsDelta))
    (0, 0)

/-- The processes of a pass to which at least one `proc.terminate()` call
was issued during the sweep. -/
def sweepTermed (A L : String → String) (P N : List String) (procs : List Proc) :
    List Proc :=
  procs.filter fun p => (sweepOne A L P N p).termRequests != 0

/-- Whether the process's (readable) absolute executable path is a member
of the stored path list. -/
def pathMatch (A : String → String) (P : List String) (p : Proc) : Bool :=
  match p.exeR with
  | none => false
  | some s => decide (A s ∈ P)

/-- Whether the process's (readable) lowercased name is a member of the
stored name list. -/
def nameMatch (L : String → String) (N : List String) (p : Proc) : Bool :=
  match p.nameR with
  | none => false
  | some n => decide (L n ∈ N)

/-- One `update_stats.emit(time_remaining, blocked_apps, attempts)`
payload. -/
structure StatsUpdate where
  timeRemaining : Int
  blocked : Nat
  attempts : Nat
deriving Repr, DecidableEq

/-- Log/notification events produced by `BlockerThread.run`. -/
inductive Event
  | scheduleConfirmed
  | configError
  | enforcementStarted
  | finishedMsg
deriving Repr, DecidableEq

/-- The consumer-visible terminal signal: `QtCore.QThread` emits its
parameterless `finished` signal whenever `run` returns, on every exit
path alike. -/
inductive Terminal
  | finishedSig
deriving Repr, DecidableEq

/-- The `self.running` flag as read at the worker's flag-check points,
numbered consecutively across the whole run.  `stopAt = some j` means a
stop request makes the flag read `False` from the `j`-th check on (the
flag, once cleared by `stop()`, is never set again). -/
def runningAt (stopAt : Option Nat) (i : Nat) : Bool :=
  match stopAt with
  | none => true
  | some j => i < j

/-- The countdown loop at `main.py` lines 93-97, unfolded on fuel.  State:
remaining fuel, next flag-check index `i`, current `wait_seconds` `w`.
Returns the emitted updates, the list of sleep durations (the code sleeps
a literal `1` second), and the flag-check index following loop exit.
Each iteration emits `(wait_seconds, 0, attempts)` (with `attempts` still
`0` in this phase) and then decrements the cached counter by one. -/
def countdownAux (stopAt : Option Nat) :
    Nat → Nat → Int → List StatsUpdate × List Int × Nat
  | 0, i, _ => ([], [], i + 1)
  | n + 1, i, w =>
    if 0 < w ∧ runningAt stopAt i then
      let r := countdownAux stopAt n (i + 1) (w - 1)
      (⟨w, 0, 0⟩ :: r.1, 1 :: r.2.1, r.2.2)
    else ([], [], i + 1)

/-- The countdown loop entered with `wait_seconds = w`: the fuel
`w.toNat` suffices because `wait_seconds` decreases by one per iteration
and the loop runs only while it is positive. -/
def countdown (stopAt : Option Nat) (i : Nat) (w : Int) :
    List StatsUpdate × List Int × Nat :=
  countdownAux stopAt w.toNat i w

/-- Trace of the enforcement loop (`main.py` lines 110-143): emitted
updates, sleep durations, the wall-clock instant of each emission, the
per-tick lists of processes that received a termination request, the
number of sweep passes performed, and the flag-check index at which the
final `if self.running:` (line 145) reads the flag. -/
structure EnfTrace where
  updates : List StatsUpdate
  sleeps : List Int
  emitTimes : List Int
  termed : List (List Proc)
  sweeps : Nat
  finalIdx : Nat
deriving Repr, DecidableEq

/-- The enforcement loop, unfolded on fuel.  `tables k` is the process
table the OS reports at the `k`-th pass, `sweepDur k` the wall-clock time
the `k`-th pass consumes, `checkFreq` the configured sleep.  Time is
measured in whole seconds from enforcement start, with
`endT = 60 * duration_minutes`.  Per iteration (guarded by
`datetime.now() < end_time and self.running`): run one sweep, advance the
clock by the sweep duration, emit
`(int(end_time - now), blocked_apps, attempts)`, sleep `checkFreq`. -/
def enforce (A L : String → String) (P N : List String) (tables : Nat → List Proc)
    (sweepDur : Nat → Int) (checkFreq : Int) (stopAt : Option Nat) (endT : Int) :
    Nat → Nat → Nat → Int → Nat → EnfTrace
  | 0, i, _, _, _ => ⟨[], [], [], [], 0, i⟩
  | fuel + 1, i, k, now, att =>
    if now < endT ∧ runningAt stopAt i then
      let tbl := tables k
      let sw := sweep A L P N tbl
      let att2 := att + sw.2
      let now2 := now + sweepDur k
      let rest := enforce A L P N tables sweepDur checkFreq stopAt endT fuel
        (i + 1) (k + 1) (now2 + checkFreq) att2
      ⟨⟨endT - now2, sw.1, att2⟩ :: rest.updates,
       checkFreq :: rest.sleeps,
       now2 :: rest.emitTimes,
       sweepTermed A L P N tbl :: rest.termed,
       rest.sweeps + 1,
       rest.finalIdx⟩
    else ⟨[], [], [], [], 0, i + 1⟩

/-- Splitting a character list at colons, mirroring how the `HH:MM`
field structure of the format string is matched. -/
def splitColon : List Char → List (List Char)
  | [] => [[]]
  | c :: rest =>
    let r := splitColon rest
    if c = ':' then [] :: r
    else
      match r with
      | [] => [[c]]
      | g :: gs => (c :: g) :: gs

/-- Numeric value of a digit field. -/
def digitsVal (cs : List Char) : Nat :=
  cs.foldl (fun acc c => acc * 10 + (c.toNat - 48)) 0

/-- Model of `datetime.strptime(s, "%H:%M")` restricted to what the code
needs: `some (hour, minute)` on a well-formed 24-hour `HH:MM` string
(each field one or two digits, hour at most 23, minute at most 59),
`none` when the call raises `ValueError`. -/
def parseHM (s : String) : Option (Nat × Nat) :=
  match splitColon s.data with
  | [hs, ms] =>
    if 1 ≤ hs.length ∧ hs.length ≤ 2 ∧ hs.all Char.isDigit ∧
       1 ≤ ms.length ∧ ms.length ≤ 2 ∧ ms.all Char.isDigit then
      let hv := digitsVal hs
      let mv := digitsVal ms
      if hv ≤ 23 ∧ mv ≤ 59 then some (hv, mv) else none
    else none
  | _ => none

/-- `wait_seconds` as computed at `main.py` lines 79-88: the parsed
`h:m` today (as seconds since midnight), pushed to tomorrow when it is
strictly in the past, minus the current time-of-day `now0`. -/
def waitSecs (now0 : Int) (h m : Nat) : Int :=
  let s : Int := 60 * (60 * (h : Int) + (m : Int))
  if s < now0 then s + 86400 - now0 else s - now0

/-- `BlockerThread.__init__` inputs (after the GUI has gathered them).
`app_paths`/`process_names` are stored normalized (absolute paths,
lowercase names) by the constructor, which the run model applies. -/
structure Config where
  app_paths : List String
  process_names : List String
  duration_minutes : Nat
  start_time : Option String
  notify : Bool
  check_frequency : Int
deriving Repr, DecidableEq

/-- Everything observable about one execution of `BlockerThread.run`. -/
structure RunResult where
  countdownUpdates : List StatsUpdate
  countdownSleeps : List Int
  enforceUpdates : List StatsUpdate
  enforceSleeps : List Int
  emitTimes : List Int
  termedPerTick : List (List Proc)
  sweepCount : Nat
  events : List Event
  terminal : Terminal
deriving Repr, DecidableEq

/-- Assembles the run result for the paths that reach the enforcement
section (`main.py` lines 104-148): the "Started blocking" log/notification
is produced unconditionally, the "Finished" one only when the flag still
reads `True` after the loop. -/
def mkResult (cdU : List StatsUpdate) (cdS : List Int) (t : EnfTrace)
    (stopAt : Option Nat) (evs0 : List Event) : RunResult :=
  { countdownUpdates := cdU
    countdownSleeps := cdS
    enforceUpdates := t.updates
    enforceSleeps := t.sleeps
    emitTimes := t.emitTimes
    termedPerTick := t.termed
    sweepCount := t.sweeps
    events := evs0 ++ [Event.enforcementStarted] ++
      (if runningAt stopAt t.finalIdx then [Event.finishedMsg] else [])
    terminal := Terminal.finishedSig }

/-- `BlockerThread.run` (`main.py` lines 75-148).  `A` models
`os.path.abspath`, `now0` the time of day (seconds since midnight) at
which the schedule is computed, `tables`/`sweepDur` the OS environment of
the enforcement passes, `stopAt` the arrival point of a stop request, and
`fuel` bounds the unfolding of the enforcement loop. -/
def runModel (A L : String → String) (cfg : Config) (now0 : Int)
    (tables : Nat → List Proc) (sweepDur : Nat → Int)
    (stopAt : Option Nat) (fuel : Nat) : RunResult :=
  let P := cfg.app_paths.map A
  let N := cfg.process_names.map L
  match cfg.start_time with
  | none =>
    mkResult [] []
      (enforce A L P N tables sweepDur cfg.check_frequency stopAt
        (60 * (cfg.duration_minutes : Int)) fuel 0 0 0 0)
      stopAt []
  | some s =>
    match parseHM s with
    | none =>
      { countdownUpdates := []
        countdownSleeps := []
        enforceUpdates := []
        enforceSleeps := []
        emitTimes := []
        termedPerTick := []
        sweepCount := 0
        events := [Event.configError]
        terminal := Terminal.finishedSig }
    | some (h, m) =>
      let cd := countdown stopAt 0 (waitSecs now0 h m)
      mkResult cd.1 cd.2.1
        (enforce A L P N tables sweepDur cfg.check_frequency stopAt
          (60 * (cfg.duration_minutes : Int)) fuel cd.2.2 0 0 0)
        stopAt [Event.scheduleConfirmed]

/-- The full stream of `update_stats` emissions of a run, in order: every
countdown emission precedes every enforcement emission. -/
def allUpdates (r : RunResult) : List StatsUpdate :=
  r.countdownUpdates ++ r.enforceUpdates

/-- `blocked_apps` and `self.attempts` are incremented in lockstep in every
branch of the per-process body. -/
theorem sweepOne_blocked_eq_attempts (A L : String → String) (P N : List String)
    (p : Proc) :
    (sweepOne A L P N p).blockedDelta = (sweepOne A L P N p).attemptsDelta := by
  rcases p with ⟨pid, exeR, nameR, waitOk⟩
  cases exeR <;> cases nameR <;> cases waitOk <;>
    simp only [sweepOne, pathStep, nameStep] <;>
    (try split_ifs) <;> simp_all

/-- A sweep totals the per-process increments. -/
theorem sweep_eq_sum (A L : String → String) (P N : List String)
    (procs : List Proc) :
    sweep A L P N procs =
      ((procs.map fun p => (sweepOne A L P N p).blockedDelta).sum,
       (procs.map fun p => (sweepOne A L P N p).attemptsDelta).sum) := by
  have key : ∀ (l : List Proc) (a b : Nat),
      l.foldl (fun acc p =>
          let o := sweepOne A L P N p
          (acc.1 + o.blockedDelta, acc.2 + o.attemptsDelta)) (a, b) =
        (a + (l.map fun p => (sweepOne A L P N p).blockedDelta).sum,
         b + (l.map fun p => (sweepOne A L P N p).attemptsDelta).sum) := by
    intro l
    induction l with
    | nil => intro a b; simp
    | cons q l ih =>
      intro a b
      simp [List.foldl_cons, ih, Nat.add_assoc]
  simpa [sweep] using key procs 0 0

/-- The per-tick `blocked_apps` total equals the per-tick attempts delta. -/
theorem sweep_fst_eq_snd (A L : String → String) (P N : List String)
    (procs : List Proc) :
    (sweep A L P N procs).1 = (sweep A L P N procs).2 := by
  rw [sweep_eq_sum]
  have h : ∀ q ∈ procs,
      (sweepOne A L P N q).blockedDelta = (sweepOne A L P N q).attemptsDelta :=
    fun q _ => sweepOne_blocked_eq_attempts A L P N q
  simpa using congrArg List.sum (List.map_congr_left h)

/-- A process whose readable absolute path is not in the path list and
whose readable lowercase name is not in the name list never has a
termination request issued during the per-process body. -/
theorem sweepOne_noMatch (A L : String → String) (P N : List String) (p : Proc)
    (h1 : pathMatch A P p = false) (h2 : nameMatch L N p = false) :
    (sweepOne A L P N p).termRequests = 0 := by
  rcases p with ⟨pid, exeR, nameR, waitOk⟩
  cases exeR <;> cases nameR <;> cases waitOk <;>
    simp_all [sweepOne, pathStep, nameStep, pathMatch, nameMatch] <;>
    (try split_ifs) <;> simp_all

/-- When the 3-second wait for exit times out, the `TimeoutExpired`
exception skips both increments: that process contributes nothing to the
tick's counts. -/
theorem sweepOne_waitTimeout (A L : String → String) (P N : List String)
    (p : Proc) (h : p.waitOk = false) :
    (sweepOne A L P N p).blockedDelta = 0 ∧ (sweepOne A L P N p).attemptsDelta = 0 := by
  rcases p with ⟨pid, exeR, nameR, waitOk⟩
  subst h
  cases exeR <;> cases nameR <;>
    simp only [sweepOne, pathStep, nameStep] <;>
    (try split_ifs) <;> simp_all

/-- The countdown loop sleeps a literal second per emitted update. -/
theorem countdownAux_sleeps (stopAt : Option Nat) (n i : Nat) (w : Int) :
    (countdownAux stopAt n i w).2.1 =
      List.replicate (countdownAux stopAt n i w).1.length 1 := by
  induction n generalizing i w with
  | zero => simp [countdownAux]
  | succ n ih =>
    simp only [countdownAux]
    split
    · simp [ih, List.replicate_succ]
    · simp

/-- Every countdown emission carries `blocked_apps = 0` and
`attempts = 0`. -/
theorem countdownAux_zeros (stopAt : Option Nat) (n i : Nat) (w : Int) :
    ∀ u ∈ (countdownAux stopAt n i w).1, u.blocked = 0 ∧ u.attempts = 0 := by
  induction n generalizing i w with
  | zero => simp [countdownAux]
  | succ n ih =>
    simp only [countdownAux]
    split
    · intro u hu
      rcases List.mem_cons.1 hu with h | h
      · subst h; exact ⟨rfl, rfl⟩
      · exact ih (i + 1) (w - 1) u h
    · simp

/-- The first countdown emission carries the entry value of
`wait_seconds`. -/
theorem countdownAux_head (stopAt : Option Nat) (n i : Nat) (w : Int)
    (u : StatsUpdate) (l : List StatsUpdate)
    (h : (countdownAux stopAt n i w).1 = u :: l) : u.timeRemaining = w := by
  cases n with
  | zero => simp [countdownAux] at h
  | succ n =>
    simp only [countdownAux] at h
    split at h
    · exact (congrArg StatsUpdate.timeRemaining (List.cons.inj h).1).symm ▸ rfl
    · simp at h

/-- Consecutive countdown emissions differ by exactly one second: the
loop decrements the cached counter rather than re-reading the clock. -/
theorem countdownAux_adj (stopAt : Option Nat) (n : Nat) :
    ∀ (i : Nat) (w : Int) (k : Nat) (u u' : StatsUpdate),
      (countdownAux stopAt n i w).1.get? k = some u →
      (countdownAux stopAt n i w).1.get? (k + 1) = some u' →
      u'.timeRemaining = u.timeRemaining - 1 := by
  induction n with
  | zero => intro i w k u u' hu _; simp [countdownAux] at hu
  | succ n ih =>
    intro i w k u u' hu hu'
    by_cases hc : 0 < w ∧ runningAt stopAt i = true
    · simp only [countdownAux] at hu hu'
      rw [if_pos hc] at hu hu'
      cases k with
      | zero =>
        simp only [List.get?_cons_zero, Option.some.injEq] at hu
        simp only [List.get?_cons_succ, List.get?_cons_zero] at hu'
        cases htl : (countdownAux stopAt n (i + 1) (w - 1)).1 with
        | nil => rw [htl] at hu'; simp at hu'
        | cons v l =>
          rw [htl] at hu'
          simp only [List.get?_cons_zero, Option.some.injEq] at hu'
          have hv := countdownAux_head stopAt n (i + 1) (w - 1) v l htl
          rw [← hu, ← hu']
          simpa using hv
      | succ k =>
        simp only [List.get?_cons_succ] at hu hu'
        exact ih (i + 1) (w - 1) k u u' hu hu'
    · simp only [countdownAux] at hu
      rw [if_neg hc] at hu
      simp at hu

/-- The flag-check index after countdown exit is the start index plus the
number of iterations, plus one for the failing check. -/
theorem countdownAux_final (stopAt : Option Nat) (n i : Nat) (w : Int) :
    (countdownAux stopAt n i w).2.2 =
      i + (countdownAux stopAt n i w).1.length + 1 := by
  induction n generalizing i w with
  | zero => simp [countdownAux]
  | succ n ih =>
    simp only [countdownAux]
    split
    · simp only [List.length_cons]
      rw [ih]
      omega
    · simp

/-- With a stop arriving at check `j`, the countdown performs at most
`j - i` iterations. -/
theorem countdownAux_len_le (j n i : Nat) (w : Int) :
    (countdownAux (some j) n i w).1.length ≤ j - i := by
  induction n generalizing i w with
  | zero => simp [countdownAux]
  | succ n ih =>
    simp only [countdownAux]
    split
    · next h =>
      have hij : i < j := by
        have := h.2
        simp [runningAt] at this
        exact this
      have := ih (i + 1) (w - 1)
      simp only [List.length_cons]
      omega
    · simp

/-- If the stop arrives no later than the countdown would naturally end,
the loop runs up to exactly check `j` and exits there. -/
theorem countdownAux_stop (j : Nat) (n : Nat) :
    ∀ (i : Nat) (w : Int), i ≤ j → (j - i : Nat) ≤ w.toNat → j - i ≤ n →
      (countdownAux (some j) n i w).2.2 = j + 1 := by
  induction n with
  | zero =>
    intro i w h1 h2 h3
    have : i = j := by omega
    subst this
    simp [countdownAux]
  | succ n ih =>
    intro i w h1 h2 h3
    by_cases hij : i = j
    · subst hij
      simp [countdownAux, runningAt]
    · have hlt : i < j := by omega
      have hw : 0 < w := by omega
      simp only [countdownAux, runningAt]
      rw [if_pos ⟨hw, by simp [hlt]⟩]
      exact ih (i + 1) (w - 1) (by omega) (by omega) (by omega)

/-- The cumulative-attempts invariant along a stream of updates: starting
from running total `a0`, each emission carries
`attempts = previous total + its own blocked count`. -/
def attemptsOk : Nat → List StatsUpdate → Prop
  | _, [] => True
  | a0, u :: us => u.attempts = a0 + u.blocked ∧ attemptsOk u.attempts us

/-- The enforcement loop maintains the cumulative-attempts invariant:
`self.attempts` is bumped by exactly this tick's `blocked_apps` before
each emission. -/
theorem enforce_attemptsOk (A L : String → String) (P N : List String)
    (tables : Nat → List Proc) (sweepDur : Nat → Int) (checkFreq : Int)
    (stopAt : Option Nat) (endT : Int) :
    ∀ (fuel i k : Nat) (now : Int) (att : Nat),
      attemptsOk att
        (enforce A L P N tables sweepDur checkFreq stopAt endT fuel i k now att).updates := by
  intro fuel
  induction fuel with
  | zero => intro i k now att; simp [enforce, attemptsOk]
  | succ n ih =>
    intro i k now att
    simp only [enforce]
    split
    · refine ⟨?_, ih (i + 1) (k + 1) (now + sweepDur k + checkFreq) _⟩
      show att + (sweep A L P N (tables k)).2 = att + (sweep A L P N (tables k)).1
      have := sweep_fst_eq_snd A L P N (tables k)
      omega
    · simp [attemptsOk]

/-- Every enforcement-loop sleep is the configured `check_frequency`. -/
theorem enforce_sleeps (A L : String → String) (P N : List String)
    (tables : Nat → List Proc) (sweepDur : Nat → Int) (checkFreq : Int)
    (stopAt : Option Nat) (endT : Int) :
    ∀ (fuel i k : Nat) (now : Int) (att : Nat),
      ∀ x ∈ (enforce A L P N tables sweepDur checkFreq stopAt endT fuel i k now att).sleeps,
        x = checkFreq := by
  intro fuel
  induction fuel with
  | zero => intro i k now att; simp [enforce]
  | succ n ih =>
    intro i k now att
    simp only [enforce]
    split
    · intro x hx
      rcases List.mem_cons.1 hx with h | h
      · exact h
      · exact ih (i + 1) (k + 1) (now + sweepDur k + checkFreq) _ x h
    · simp

/-- Each enforcement emission carries `end_time` minus the clock value at
which it was computed (no clamping to zero). -/
theorem enforce_emitTimes (A L : String → String) (P N : List String)
    (tables : Nat → List Proc) (sweepDur : Nat → Int) (checkFreq : Int)
    (stopAt : Option Nat) (endT : Int) :
    ∀ (fuel i k : Nat) (now : Int) (att : Nat) (idx : Nat) (u : StatsUpdate) (t : Int),
      (enforce A L P N tables sweepDur checkFreq stopAt endT fuel i k now att).updates.get? idx = some u →
      (enforce A L P N tables sweepDur checkFreq stopAt endT fuel i k now att).emitTimes.get? idx = some t →
      u.timeRemaining = endT - t := by
  intro fuel
  induction fuel with
  | zero => intro i k now att idx u t hu _; simp [enforce] at hu
  | succ n ih =>
    intro i k now att idx u t hu ht
    by_cases hc : now < endT ∧ runningAt stopAt i = true
    · simp only [enforce] at hu ht
      rw [if_pos hc] at hu ht
      cases idx with
      | zero =>
        simp only [List.get?_cons_zero, Option.some.injEq] at hu ht
        rw [← hu, ← ht]
      | succ idx =>
        simp only [List.get?_cons_succ] at hu ht
        exact ih (i + 1) (k + 1) (now + sweepDur k + checkFreq) _ idx u t hu ht
    · simp only [enforce] at hu
      rw [if_neg hc] at hu
      simp at hu

/-- Every per-tick termination list of the enforcement loop is the list of
processes of some pass's table that received a termination request. -/
theorem enforce_termed_shape (A L : String → String) (P N : List String)
    (tables : Nat → List Proc) (sweepDur : Nat → Int) (checkFreq : Int)
    (stopAt : Option Nat) (endT : Int) :
    ∀ (fuel i k : Nat) (now : Int) (att : Nat),
      ∀ l ∈ (enforce A L P N tables sweepDur checkFreq stopAt endT fuel i k now att).termed,
        ∃ kk, l = sweepTermed A L P N (tables kk) := by
  intro fuel
  induction fuel with
  | zero => intro i k now att; simp [enforce]
  | succ n ih =>
    intro i k now att
    simp only [enforce]
    split
    · intro l hl
      rcases List.mem_cons.1 hl with h | h
      · exact ⟨k, h⟩
      · exact ih (i + 1) (k + 1) (now + sweepDur k + checkFreq) _ l h
    · simp

/-- The loop performs exactly one sweep pass per emitted update. -/
theorem enforce_sweeps_eq (A L : String → String) (P N : List String)
    (tables : Nat → List Proc) (sweepDur : Nat → Int) (checkFreq : Int)
    (stopAt : Option Nat) (endT : Int) :
    ∀ (fuel i k : Nat) (now : Int) (att : Nat),
      (enforce A L P N tables sweepDur checkFreq stopAt endT fuel i k now att).sweeps =
        (enforce A L P N tables sweepDur checkFreq stopAt endT fuel i k now att).updates.length := by
  intro fuel
  induction fuel with
  | zero => intro i k now att; simp [enforce]
  | succ n ih =>
    intro i k now att
    simp only [enforce]
    split
    · simp [ih (i + 1) (k + 1) (now + sweepDur k + checkFreq)]
    · simp

/-- With a stop arriving at check `j`, the enforcement loop starting at
check `i` performs at most `j - i` iterations. -/
theorem enforce_len_le (A L : String → String) (P N : List String)
    (tables : Nat → List Proc) (sweepDur : Nat → Int) (checkFreq : Int)
    (j : Nat) (endT : Int) :
    ∀ (fuel i k : Nat) (now : Int) (att : Nat),
      (enforce A L P N tables sweepDur checkFreq (some j) endT fuel i k now att).updates.length ≤
        j - i := by
  intro fuel
  induction fuel with
  | zero => intro i k now att; simp [enforce]
  | succ n ih =>
    intro i k now att
    simp only [enforce]
    split
    · next h =>
      have hij : i < j := by
        have := h.2
        simp [runningAt] at this
        exact this
      have := ih (i + 1) (k + 1) (now + sweepDur k + checkFreq)
        (att + (sweep A L P N (tables k)).2)
      simp only [List.length_cons]
      omega
    · simp

/-- A loop entered with the flag already cleared performs nothing, and the
flag stays cleared at the final check. -/
theorem enforce_stopped (A L : String → String) (P N : List String)
    (tables : Nat → List Proc) (sweepDur : Nat → Int) (checkFreq : Int)
    (j : Nat) (endT : Int) (fuel i k : Nat) (now : Int) (att : Nat)
    (h : j ≤ i) :
    (enforce A L P N tables sweepDur checkFreq (some j) endT fuel i k now att) =
      ⟨[], [], [], [], 0,
        (enforce A L P N tables sweepDur checkFreq (some j) endT fuel i k now att).finalIdx⟩ ∧
    j ≤ (enforce A L P N tables sweepDur checkFreq (some j) endT fuel i k now att).finalIdx := by
  cases fuel with
  | zero => exact ⟨rfl, h⟩
  | succ n =>
    have hcond : ¬(now < endT ∧ runningAt (some j) i = true) := by
      intro hcontra
      have := hcontra.2
      simp [runningAt] at this
      omega
    simp only [enforce]
    rw [if_neg hcond]
    refine ⟨rfl, ?_⟩
    show j ≤ i + 1
    omega

/-- Reading the invariant off at a position: each emission's attempts
equal the initial total plus the blocked counts emitted so far. -/
theorem attemptsOk_get (us : List StatsUpdate) :
    ∀ (a0 k : Nat) (u : StatsUpdate), attemptsOk a0 us → us.get? k = some u →
      u.attempts = a0 + ((us.take (k + 1)).map StatsUpdate.blocked).sum := by
  induction us with
  | nil => intro a0 k u _ h; simp at h
  | cons v l ih =>
    intro a0 k u hok hu
    obtain ⟨h1, h2⟩ := hok
    cases k with
    | zero =>
      simp only [List.get?_cons_zero, Option.some.injEq] at hu
      subst hu
      simp [h1]
    | succ k =>
      simp only [List.get?_cons_succ] at hu
      have := ih v.attempts k u h2 hu
      simp only [List.take_succ_cons, List.map_cons, List.sum_cons]
      omega

/-- Prefix sums of a list of naturals are monotone in the prefix
length. -/
theorem sum_take_le_sum_take (l : List Nat) {a b : Nat} (h : a ≤ b) :
    (l.take a).sum ≤ (l.take b).sum := by
  rw [show l.take a = (l.take b).take a by rw [List.take_take, Nat.min_eq_left h]]
  conv_rhs => rw [← List.take_append_drop a (l.take b)]
  rw [List.sum_append]
  exact Nat.le_add_right _ _

/-- Prepending emissions that carry zero blocked and zero attempts
preserves the invariant from total zero. -/
theorem attemptsOk_append_zeros (l1 l2 : List StatsUpdate)
    (h1 : ∀ u ∈ l1, u.blocked = 0 ∧ u.attempts = 0) (h2 : attemptsOk 0 l2) :
    attemptsOk 0 (l1 ++ l2) := by
  induction l1 with
  | nil => simpa using h2
  | cons v l ih =>
    have hv := h1 v (List.mem_cons_self v l)
    refine ⟨by simp [hv.1, hv.2], ?_⟩
    rw [hv.2]
    exact ih fun u hu => h1 u (List.mem_cons_of_mem v hu)

/-- A name-denylisted process that never exits within the 3-second wait. -/
def pTimeout : Proc := ⟨7, some "", some "calc", false⟩

/-- A process whose executable path and name are both denylisted and which
exits promptly when terminated. -/
def pBoth : Proc := ⟨8, some "/a/x", some "x", true⟩

/-- A process whose executable-path read raises but whose name is
denylisted. -/
def pExeErr : Proc := ⟨3, none, some "calc", true⟩

/-- A process with an empty (falsy) executable path whose name is
denylisted. -/
def pEmptyExe : Proc := ⟨4, some "", some "calc", true⟩

/-- A name-denylisted process that exits promptly when terminated. -/
def pCalc : Proc := ⟨1, some "", some "calc", true⟩

/-- A process matching neither the path nor the name denylist. -/
def pOther : Proc := ⟨9, some "/bin/sh", some "sh", true⟩

/-- A name-only denylist configuration, one-minute duration, poll every
second, no scheduled start. -/
def cfgNames : Config := ⟨[], ["calc"], 1, none, false, 1⟩

/-- A configuration denylisting both a path and a name. -/
def cfgBoth : Config := ⟨["/a/x"], ["x"], 1, none, false, 1⟩

/-- A configuration with a scheduled start at 10:00. -/
def cfgSched : Config := ⟨[], ["calc"], 1, some "10:00", true, 1⟩

/-- A scheduled-start configuration with a two-second poll interval. -/
def cfgSched2 : Config := ⟨[], ["calc"], 1, some "10:00", false, 2⟩

/-- A configuration with a malformed scheduled start time. -/
def cfgBad : Config := ⟨[], ["calc"], 1, some "99:99", false, 1⟩

/-- Sweeps that consume no measurable wall-clock time. -/
def sd0 : Nat → Int := fun _ => 0

/-- Sweeps that take 70 seconds of wall-clock time each. -/
def sd70 : Nat → Int := fun _ => 70

/-- An empty process table at every tick. -/
def tblE : Nat → List Proc := fun _ => []

/-- C1 counterexample: a name-matched process whose wait for exit times
out yields a tick whose emitted update counts zero blocked and zero
attempts, even though a termination request was issued to it — the claim
that exactly one attempt is counted as soon as termination is requested
fails. -/
theorem c1_counterexample :
    (runModel id id cfgNames 0 (fun _ => [pTimeout]) sd0 none 1).enforceUpdates =
      [⟨60, 0, 0⟩] ∧
    (runModel id id cfgNames 0 (fun _ => [pTimeout]) sd0 none 1).termedPerTick =
      [[pTimeout]] := by
  exact ⟨by decide, by decide⟩

/-- C1 (amended): the counts are incremented only after the wait confirms
exit within the timeout; when `proc.wait(timeout=3)` times out, the
process contributes zero to `blocked_apps` and to the attempts delta for
that tick, and the sweep still completes over the remaining processes
unchanged rather than hanging. -/
theorem c1_timeout_not_counted (A L : String → String) (P N : List String)
    (p : Proc) (ps : List Proc) (h : p.waitOk = false) :
    (sweepOne A L P N p).blockedDelta = 0 ∧ (sweepOne A L P N p).attemptsDelta = 0 ∧
    sweep A L P N (p :: ps) = sweep A L P N ps := by
  obtain ⟨h1, h2⟩ := sweepOne_waitTimeout A L P N p h
  refine ⟨h1, h2, ?_⟩
  simp [sweep, List.foldl_cons, h1, h2]

/-- C1 witness: the timing-out process contributes nothing and the sweep
proceeds. -/
theorem c1_witness :
    (sweepOne id id [] ["calc"] pTimeout).blockedDelta = 0 ∧
    (sweepOne id id [] ["calc"] pTimeout).attemptsDelta = 0 ∧
    sweep id id [] ["calc"] (pTimeout :: []) = sweep id id [] ["calc"] [] :=
  c1_timeout_not_counted id id [] ["calc"] pTimeout [] rfl

/-- C2 counterexample: a single process whose path and name are both
denylisted contributes two (not one) to the tick's blocked count and to
the attempts delta. -/
theorem c2_counterexample :
    (runModel id id cfgBoth 0 (fun _ => [pBoth]) sd0 none 1).enforceUpdates =
      [⟨60, 2, 2⟩] := by
  decide

/-- C2 (amended): the path and name checks run independently and each
counts separately; for a process with readable attributes that exits
within the wait, the contribution to `blocked_apps` and to the attempts
delta is the sum of one per matching dimension — in particular two when
both match. -/
theorem c2_both_checks_count (A L : String → String) (P N : List String)
    (p : Proc) (s n : String) (hs : p.exeR = some s) (hn : p.nameR = some n)
    (hw : p.waitOk = true) :
    (sweepOne A L P N p).blockedDelta =
      ((if P ≠ [] ∧ s ≠ "" ∧ A s ∈ P then 1 else 0) +
       (if N ≠ [] ∧ L n ∈ N then 1 else 0)) ∧
    (sweepOne A L P N p).attemptsDelta =
      ((if P ≠ [] ∧ s ≠ "" ∧ A s ∈ P then 1 else 0) +
       (if N ≠ [] ∧ L n ∈ N then 1 else 0)) := by
  rcases p with ⟨pid, exeR, nameR, waitOk⟩
  simp only at hs hn hw
  subst hs; subst hn; subst hw
  simp only [sweepOne, pathStep, nameStep]
  split_ifs <;> simp_all

/-- C2 witness: both dimensions match, so the process counts twice in one
tick. -/
theorem c2_witness :
    (sweepOne id id ["/a/x"] ["x"] pBoth).blockedDelta =
      ((if (["/a/x"] : List String) ≠ [] ∧ "/a/x" ≠ "" ∧
            id "/a/x" ∈ (["/a/x"] : List String) then 1 else 0) +
       (if (["x"] : List String) ≠ [] ∧ id "x" ∈ (["x"] : List String)
          then 1 else 0)) ∧
    (sweepOne id id ["/a/x"] ["x"] pBoth).attemptsDelta =
      ((if (["/a/x"] : List String) ≠ [] ∧ "/a/x" ≠ "" ∧
            id "/a/x" ∈ (["/a/x"] : List String) then 1 else 0) +
       (if (["x"] : List String) ≠ [] ∧ id "x" ∈ (["x"] : List String)
          then 1 else 0)) :=
  c2_both_checks_count id id ["/a/x"] ["x"] pBoth "/a/x" "x" rfl rfl rfl

/-- C3 counterexample: with a non-empty path denylist, a process whose
executable-path read raises receives no termination request even though
its name is denylisted — the raised exception skips the name dimension for
that process; with an empty path list the same process is terminated. -/
theorem c3_counterexample :
    (sweepOne id id ["/x"] ["calc"] pExeErr).termRequests = 0 ∧
    (sweepOne id id [] ["calc"] pExeErr).termRequests = 1 := by
  exact ⟨by decide, by decide⟩

/-- C3 (amended): an executable path that reads as the empty (falsy)
string is no match on the path dimension only and the name check still
runs; but an exception while reading the path (with a non-empty path
denylist) skips both dimensions for that process, caught locally as a
soft failure; either way the pass continues and each process's
contribution is independent of the others. -/
theorem c3_exe_read (A L : String → String) (P N : List String) (p : Proc)
    (ps : List Proc) :
    (p.exeR = some "" → sweepOne A L P N p = sweepOne A L [] N p) ∧
    (p.exeR = none → P ≠ [] → sweepOne A L P N p = ⟨0, 0, 0, true⟩) ∧
    (sweep A L P N (p :: ps)).1 =
      (sweepOne A L P N p).blockedDelta + (sweep A L P N ps).1 ∧
    (sweep A L P N (p :: ps)).2 =
      (sweepOne A L P N p).attemptsDelta + (sweep A L P N ps).2 := by
  refine ⟨?_, ?_, ?_, ?_⟩
  · intro he
    rcases p with ⟨pid, exeR, nameR, waitOk⟩
    simp only at he
    subst he
    by_cases hP : P = [] <;> simp [sweepOne, pathStep, hP]
  · intro he hP
    rcases p with ⟨pid, exeR, nameR, waitOk⟩
    simp only at he
    subst he
    simp [sweepOne, pathStep, hP]
  · rw [sweep_eq_sum, sweep_eq_sum]
    simp
  · rw [sweep_eq_sum, sweep_eq_sum]
    simp

/-- C3 witness: the empty-path process is handled as if the path list were
empty, and the exception-raising process is skipped entirely. -/
theorem c3_witness :
    (sweepOne id id ["/x"] ["calc"] pEmptyExe = sweepOne id id [] ["calc"] pEmptyExe) ∧
    (sweepOne id id ["/x"] ["calc"] pExeErr = ⟨0, 0, 0, true⟩) :=
  ⟨(c3_exe_read id id ["/x"] ["calc"] pEmptyExe []).1 rfl,
   (c3_exe_read id id ["/x"] ["calc"] pExeErr []).2.1 rfl (by simp)⟩

/-- C4 counterexample: when a sweep pass runs past the end of the
enforcement window (here a 70-second pass against a 60-second window), the
emitted update carries a negative `secondsRemaining` — the code computes
`int((end_time - now).total_seconds())` with no `max(0, ...)` clamp. -/
theorem c4_counterexample :
    ¬ ∀ u ∈ (runModel id id cfgNames 0 tblE sd70 none 2).enforceUpdates,
        0 ≤ u.timeRemaining := by
  intro h
  have hm : (⟨-10, 0, 0⟩ : StatsUpdate) ∈
      (runModel id id cfgNames 0 tblE sd70 none 2).enforceUpdates := by
    decide
  have := h ⟨-10, 0, 0⟩ hm
  simp at this

/-- C4 (amended): every enforcement emission carries
`secondsRemaining = endTime - now` measured after the sweep pass, with no
clamping to zero; the value is negative exactly when the pass overran the
window. -/
theorem c4_seconds_remaining (A L : String → String) (cfg : Config)
    (now0 : Int) (tables : Nat → List Proc) (sweepDur : Nat → Int)
    (stopAt : Option Nat) (fuel : Nat) (idx : Nat) (u : StatsUpdate) (t : Int)
    (hu : (runModel A L cfg now0 tables sweepDur stopAt fuel).enforceUpdates.get? idx =
      some u)
    (ht : (runModel A L cfg now0 tables sweepDur stopAt fuel).emitTimes.get? idx =
      some t) :
    u.timeRemaining = 60 * (cfg.duration_minutes : Int) - t := by
  cases hst : cfg.start_time with
  | none =>
    simp only [runModel, hst, mkResult] at hu ht
    exact enforce_emitTimes A L (cfg.app_paths.map A) (cfg.process_names.map L)
      tables sweepDur cfg.check_frequency stopAt (60 * (cfg.duration_minutes : Int))
      fuel 0 0 0 0 idx u t hu ht
  | some s =>
    cases hp : parseHM s with
    | none =>
      simp only [runModel, hst, hp] at hu
      simp at hu
    | some hm =>
      obtain ⟨h, m⟩ := hm
      simp only [runModel, hst, hp, mkResult] at hu ht
      exact enforce_emitTimes A L (cfg.app_paths.map A) (cfg.process_names.map L)
        tables sweepDur cfg.check_frequency stopAt (60 * (cfg.duration_minutes : Int))
        fuel (countdown stopAt 0 (waitSecs now0 h m)).2.2 0 0 0 idx u t hu ht

/-- C4 witness: the overrunning pass's emission equals the window end
minus the emission clock value (and is negative). -/
theorem c4_witness :
    StatsUpdate.timeRemaining ⟨-10, 0, 0⟩ =
      60 * (cfgNames.duration_minutes : Int) - 70 :=
  c4_seconds_remaining id id cfgNames 0 tblE sd70 none 2 0 ⟨-10, 0, 0⟩ 70
    (by decide) (by decide)

/-- Helper for C5: a non-matching process is never in a pass's
termination-request list. -/
theorem termed_no_match (A L : String → String) (P N : List String) (p : Proc)
    (h1 : pathMatch A P p = false) (h2 : nameMatch L N p = false)
    (procs : List Proc) : p ∉ sweepTermed A L P N procs := by
  intro hpl
  simp only [sweepTermed, List.mem_filter] at hpl
  rw [sweepOne_noMatch A L P N p h1 h2] at hpl
  simp at hpl

/-- C5: a process whose readable absolute executable path is not in the
stored path set and whose readable lowercased name is not in the stored
name set never receives a termination request, in any tick of any run. -/
theorem c5_no_false_positives (A L : String → String) (cfg : Config)
    (now0 : Int) (tables : Nat → List Proc) (sweepDur : Nat → Int)
    (stopAt : Option Nat) (fuel : Nat) (p : Proc)
    (h1 : pathMatch A (cfg.app_paths.map A) p = false)
    (h2 : nameMatch L (cfg.process_names.map L) p = false) :
    ∀ l ∈ (runModel A L cfg now0 tables sweepDur stopAt fuel).termedPerTick,
      p ∉ l := by
  intro l hl hpl
  cases hst : cfg.start_time with
  | none =>
    simp only [runModel, hst, mkResult] at hl
    obtain ⟨kk, hlk⟩ := enforce_termed_shape A L (cfg.app_paths.map A)
      (cfg.process_names.map L) tables sweepDur cfg.check_frequency stopAt
      (60 * (cfg.duration_minutes : Int)) fuel 0 0 0 0 l hl
    subst hlk
    exact termed_no_match A L (cfg.app_paths.map A) (cfg.process_names.map L) p
      h1 h2 (tables kk) hpl
  | some s =>
    cases hp : parseHM s with
    | none =>
      simp only [runModel, hst, hp] at hl
      simp at hl
    | some hm =>
      obtain ⟨h, m⟩ := hm
      simp only [runModel, hst, hp, mkResult] at hl
      obtain ⟨kk, hlk⟩ := enforce_termed_shape A L (cfg.app_paths.map A)
        (cfg.process_names.map L) tables sweepDur cfg.check_frequency stopAt
        (60 * (cfg.duration_minutes : Int)) fuel
        (countdown stopAt 0 (waitSecs now0 h m)).2.2 0 0 0 l hl
      subst hlk
      exact termed_no_match A L (cfg.app_paths.map A) (cfg.process_names.map L) p
        h1 h2 (tables kk) hpl

/-- C5 witness: in a run where the table holds a denylisted process and an
innocent one, the innocent process is absent from the tick's termination
list. -/
theorem c5_witness : pOther ∉ [pCalc] :=
  c5_no_false_positives id id cfgNames 0 (fun _ => [pCalc, pOther]) sd0 none 1
    pOther (by decide) (by decide) [pCalc] (by decide)

/-- C6: over the full emission stream of any run, every update's
cumulative attempts equal the sum of the blocked counts (the per-tick
attempts deltas) emitted up to and including it, and the cumulative
attempts are monotonically non-decreasing along the stream. -/
theorem c6_cumulative_attempts (A L : String → String) (cfg : Config)
    (now0 : Int) (tables : Nat → List Proc) (sweepDur : Nat → Int)
    (stopAt : Option Nat) (fuel : Nat) :
    (∀ (k : Nat) (u : StatsUpdate),
        (allUpdates (runModel A L cfg now0 tables sweepDur stopAt fuel)).get? k =
          some u →
        u.attempts =
          (((allUpdates (runModel A L cfg now0 tables sweepDur stopAt fuel)).take
              (k + 1)).map StatsUpdate.blocked).sum) ∧
    (∀ (k j : Nat) (u u' : StatsUpdate), k ≤ j →
        (allUpdates (runModel A L cfg now0 tables sweepDur stopAt fuel)).get? k =
          some u →
        (allUpdates (runModel A L cfg now0 tables sweepDur stopAt fuel)).get? j =
          some u' →
        u.attempts ≤ u'.attempts) := by
  have hok : attemptsOk 0
      (allUpdates (runModel A L cfg now0 tables sweepDur stopAt fuel)) := by
    cases hst : cfg.start_time with
    | none =>
      simp only [allUpdates, runModel, hst, mkResult, List.nil_append]
      exact enforce_attemptsOk A L (cfg.app_paths.map A) (cfg.process_names.map L)
        tables sweepDur cfg.check_frequency stopAt
        (60 * (cfg.duration_minutes : Int)) fuel 0 0 0 0
    | some s =>
      cases hp : parseHM s with
      | none =>
        simp only [allUpdates, runModel, hst, hp, List.append_nil]
        trivial
      | some hm =>
        obtain ⟨h, m⟩ := hm
        simp only [allUpdates, runModel, hst, hp, mkResult, countdown]
        exact attemptsOk_append_zeros _ _
          (fun u hu => countdownAux_zeros stopAt _ 0 _ u hu)
          (enforce_attemptsOk A L (cfg.app_paths.map A) (cfg.process_names.map L)
            tables sweepDur cfg.check_frequency stopAt
            (60 * (cfg.duration_minutes : Int)) fuel _ 0 0 0)
  constructor
  · intro k u hu
    simpa using attemptsOk_get _ 0 k u hok hu
  · intro k j u u' hkj hu hu'
    have e1 := attemptsOk_get _ 0 k u hok hu
    have e2 := attemptsOk_get _ 0 j u' hok hu'
    rw [e1, e2, List.map_take, List.map_take]
    exact Nat.add_le_add_left
      (sum_take_le_sum_take _ (show k + 1 ≤ j + 1 by omega)) 0

/-- C6 witness: in a one-tick run that blocks one process, the emitted
cumulative attempts equal the blocked-count prefix sum. -/
theorem c6_witness :
    StatsUpdate.attempts ⟨60, 1, 1⟩ =
      (((allUpdates (runModel id id cfgNames 0 (fun _ => [pCalc]) sd0 none 1)).take
          (0 + 1)).map StatsUpdate.blocked).sum :=
  (c6_cumulative_attempts id id cfgNames 0 (fun _ => [pCalc]) sd0 none 1).1 0
    ⟨60, 1, 1⟩ (by decide)

/-- C7 counterexample: a stop that arrives during the countdown (one
countdown emission, then the flag clears) performs no sweep pass, yet the
"Started blocking" enforcement-started log/notification is still produced
after the stop — refuting the claim that no enforcement-started effect
occurs after a stop in countdown. -/
theorem c7_counterexample :
    (runModel id id cfgSched 35940 tblE sd0 (some 1) 3).countdownUpdates.length = 1 ∧
    (runModel id id cfgSched 35940 tblE sd0 (some 1) 3).sweepCount = 0 ∧
    (runModel id id cfgSched 35940 tblE sd0 (some 1) 3).events =
      [Event.scheduleConfirmed, Event.enforcementStarted] := by
  exact ⟨by decide, by decide, by decide⟩

/-- C7 (amended): if the stop arrives during the countdown phase, no
enumeration-and-termination pass runs, no enforcement update is emitted,
no termination is requested, and the finished message is suppressed — but
the enforcement-started log/notification is still produced after the
stop. -/
theorem c7_stop_during_countdown (A L : String → String) (cfg : Config)
    (now0 : Int) (tables : Nat → List Proc) (sweepDur : Nat → Int) (fuel : Nat)
    (s : String) (h m j : Nat) (hst : cfg.start_time = some s)
    (hp : parseHM s = some (h, m)) (hj : j ≤ (waitSecs now0 h m).toNat) :
    (runModel A L cfg now0 tables sweepDur (some j) fuel).sweepCount = 0 ∧
    (runModel A L cfg now0 tables sweepDur (some j) fuel).enforceUpdates = [] ∧
    (runModel A L cfg now0 tables sweepDur (some j) fuel).termedPerTick = [] ∧
    (runModel A L cfg now0 tables sweepDur (some j) fuel).events =
      [Event.scheduleConfirmed, Event.enforcementStarted] := by
  have hfin : (countdown (some j) 0 (waitSecs now0 h m)).2.2 = j + 1 :=
    countdownAux_stop j (waitSecs now0 h m).toNat 0 (waitSecs now0 h m)
      (Nat.zero_le j) (by omega) (by omega)
  simp only [runModel, hst, hp, mkResult]
  rw [hfin]
  have hstop := enforce_stopped A L (cfg.app_paths.map A) (cfg.process_names.map L)
    tables sweepDur cfg.check_frequency j (60 * (cfg.duration_minutes : Int))
    fuel (j + 1) 0 0 0 (by omega)
  have h2 := hstop.2
  have hrun : runningAt (some j)
      (enforce A L (cfg.app_paths.map A) (cfg.process_names.map L) tables sweepDur
        cfg.check_frequency (some j) (60 * (cfg.duration_minutes : Int)) fuel
        (j + 1) 0 0 0).finalIdx = false := by
    simp only [runningAt, decide_eq_false_iff_not]
    omega
  refine ⟨?_, ?_, ?_, ?_⟩
  · rw [hstop.1]
  · rw [hstop.1]
  · rw [hstop.1]
  · simp [hrun]

/-- C7 witness: the concrete stop-during-countdown run. -/
theorem c7_witness :
    (runModel id id cfgSched 35940 tblE sd0 (some 1) 3).sweepCount = 0 ∧
    (runModel id id cfgSched 35940 tblE sd0 (some 1) 3).enforceUpdates = [] ∧
    (runModel id id cfgSched 35940 tblE sd0 (some 1) 3).termedPerTick = [] ∧
    (runModel id id cfgSched 35940 tblE sd0 (some 1) 3).events =
      [Event.scheduleConfirmed, Event.enforcementStarted] :=
  c7_stop_during_countdown id id cfgSched 35940 tblE sd0 3 "10:00" 10 0 1 rfl
    (by decide) (by decide)

/-- C8 counterexample: the malformed-start-time run and a normally
completing run terminate with the identical parameterless finished signal
— there is no consumer-visible terminal failure state distinguishable
from normal completion (only the log/notification text differs). -/
theorem c8_counterexample :
    (runModel id id cfgBad 0 tblE sd0 none 2).terminal =
      (runModel id id cfgNames 0 tblE sd0 none 2).terminal ∧
    (runModel id id cfgBad 0 tblE sd0 none 2).sweepCount = 0 ∧
    Event.finishedMsg ∈ (runModel id id cfgNames 0 tblE sd0 none 2).events ∧
    Event.configError ∈ (runModel id id cfgBad 0 tblE sd0 none 2).events := by
  exact ⟨by decide, by decide, by decide, by decide⟩

/-- C8 (amended): a malformed scheduled start time makes the run fail fast
— no countdown emission, no enforcement update, no sweep pass, no
termination request, only the error log/notification — but the failure
reaches the consumer through the same parameterless finished signal as
normal completion, not through a distinguishable terminal failure
state. -/
theorem c8_config_error (A L : String → String) (cfg : Config) (now0 : Int)
    (tables : Nat → List Proc) (sweepDur : Nat → Int) (stopAt : Option Nat)
    (fuel : Nat) (s : String) (hst : cfg.start_time = some s)
    (hbad : parseHM s = none) :
    runModel A L cfg now0 tables sweepDur stopAt fuel =
      ⟨[], [], [], [], [], [], 0, [Event.configError], Terminal.finishedSig⟩ := by
  simp only [runModel, hst, hbad]

/-- C8 witness: the malformed configuration fails fast into the common
terminal shape. -/
theorem c8_witness :
    runModel id id cfgBad 0 tblE sd0 none 2 =
      ⟨[], [], [], [], [], [], 0, [Event.configError], Terminal.finishedSig⟩ :=
  c8_config_error id id cfgBad 0 tblE sd0 none 2 "99:99" rfl (by decide)

/-- C9 counterexample: with a configured poll interval of two seconds, the
countdown loop still sleeps one second per iteration (while the
enforcement loop sleeps the configured two) — the countdown does not use
the configured poll interval. -/
theorem c9_counterexample :
    (runModel id id cfgSched2 35995 tblE sd0 none 2).countdownSleeps =
      [1, 1, 1, 1, 1] ∧
    cfgSched2.check_frequency = 2 ∧
    (runModel id id cfgSched2 35995 tblE sd0 none 2).enforceSleeps = [2, 2] := by
  exact ⟨by decide, by decide, by decide⟩

/-- C9 (amended): each countdown iteration sleeps a fixed one second
regardless of the configured poll interval (which the enforcement loop
does use), and successive countdown emissions decrease by exactly one
because the loop decrements its cached counter instead of recomputing from
the wall clock. -/
theorem c9_countdown_sleep (A L : String → String) (cfg : Config)
    (now0 : Int) (tables : Nat → List Proc) (sweepDur : Nat → Int)
    (stopAt : Option Nat) (fuel : Nat) :
    (runModel A L cfg now0 tables sweepDur stopAt fuel).countdownSleeps =
      List.replicate
        (runModel A L cfg now0 tables sweepDur stopAt fuel).countdownUpdates.length
        1 ∧
    (∀ (k : Nat) (u u' : StatsUpdate),
        (runModel A L cfg now0 tables sweepDur stopAt fuel).countdownUpdates.get?
          k = some u →
        (runModel A L cfg now0 tables sweepDur stopAt fuel).countdownUpdates.get?
          (k + 1) = some u' →
        u'.timeRemaining = u.timeRemaining - 1) ∧
    (∀ x ∈ (runModel A L cfg now0 tables sweepDur stopAt fuel).enforceSleeps,
        x = cfg.check_frequency) := by
  cases hst : cfg.start_time with
  | none =>
    simp only [runModel, hst, mkResult]
    refine ⟨by simp, ?_, ?_⟩
    · intro k u u' hu
      simp at hu
    · exact enforce_sleeps A L (cfg.app_paths.map A) (cfg.process_names.map L)
        tables sweepDur cfg.check_frequency stopAt
        (60 * (cfg.duration_minutes : Int)) fuel 0 0 0 0
  | some s =>
    cases hp : parseHM s with
    | none =>
      simp only [runModel, hst, hp]
      refine ⟨by simp, ?_, ?_⟩
      · intro k u u' hu
        simp at hu
      · intro x hx
        simp at hx
    | some hm =>
      obtain ⟨h, m⟩ := hm
      simp only [runModel, hst, hp, mkResult, countdown]
      refine ⟨countdownAux_sleeps stopAt _ 0 _, ?_, ?_⟩
      · exact fun k u u' hu hu' => countdownAux_adj stopAt _ 0 _ k u u' hu hu'
      · exact enforce_sleeps A L (cfg.app_paths.map A) (cfg.process_names.map L)
          tables sweepDur cfg.check_frequency stopAt
          (60 * (cfg.duration_minutes : Int)) fuel _ 0 0 0

/-- C9 witness: adjacent countdown emissions of the concrete scheduled run
decrease by one second. -/
theorem c9_witness :
    StatsUpdate.timeRemaining ⟨4, 0, 0⟩ = StatsUpdate.timeRemaining ⟨5, 0, 0⟩ - 1 :=
  (c9_countdown_sleep id id cfgSched2 35995 tblE sd0 none 2).2.1 0 ⟨5, 0, 0⟩
    ⟨4, 0, 0⟩ (by decide) (by decide)

/-- C10: once the running flag reads false — `stop()` clears it and then
joins the worker — the worker performs no further countdown iteration, no
further sweep pass, and emits no further update: the total number of loop
iterations (countdown emissions plus enforcement emissions, the latter
equal to the number of sweep passes) is bounded by the number of
flag checks that happened before the stop. -/
theorem c10_stop_halts_worker (A L : String → String) (cfg : Config)
    (now0 : Int) (tables : Nat → List Proc) (sweepDur : Nat → Int)
    (j : Nat) (fuel : Nat) :
    (runModel A L cfg now0 tables sweepDur (some j) fuel).countdownUpdates.length +
      (runModel A L cfg now0 tables sweepDur (some j) fuel).enforceUpdates.length ≤
      j ∧
    (runModel A L cfg now0 tables sweepDur (some j) fuel).sweepCount =
      (runModel A L cfg now0 tables sweepDur (some j) fuel).enforceUpdates.length := by
  cases hst : cfg.start_time with
  | none =>
    simp only [runModel, hst, mkResult]
    constructor
    · have := enforce_len_le A L (cfg.app_paths.map A) (cfg.process_names.map L)
        tables sweepDur cfg.check_frequency j (60 * (cfg.duration_minutes : Int))
        fuel 0 0 0 0
      simp only [List.length_nil]
      omega
    · exact enforce_sweeps_eq A L (cfg.app_paths.map A) (cfg.process_names.map L)
        tables sweepDur cfg.check_frequency (some j)
        (60 * (cfg.duration_minutes : Int)) fuel 0 0 0 0
  | some s =>
    cases hp : parseHM s with
    | none =>
      simp only [runModel, hst, hp]
      simp
    | some hm =>
      obtain ⟨h, m⟩ := hm
      simp only [runModel, hst, hp, mkResult, countdown]
      constructor
      · have hc := countdownAux_len_le j (waitSecs now0 h m).toNat 0
          (waitSecs now0 h m)
        have hfin := countdownAux_final (some j) (waitSecs now0 h m).toNat 0
          (waitSecs now0 h m)
        have he := enforce_len_le A L (cfg.app_paths.map A)
          (cfg.process_names.map L) tables sweepDur cfg.check_frequency j
          (60 * (cfg.duration_minutes : Int)) fuel
          (countdownAux (some j) (waitSecs now0 h m).toNat 0
            (waitSecs now0 h m)).2.2 0 0 0
        omega
      · exact enforce_sweeps_eq A L (cfg.app_paths.map A)
          (cfg.process_names.map L) tables sweepDur cfg.check_frequency (some j)
          (60 * (cfg.duration_minutes : Int)) fuel _ 0 0 0

end PyBlocker
